import Mathlib

/-!
Verification of the merge-planning engine in `src/app/similar.py`.

The Python program is shallowly embedded below.  External I/O facilities
(PIL resolution lookup, exiftool metadata, stat, imagehash, wall-clock
time) are modelled as oracle functions collected in `Env`; the filesystem
visible to `target_path_for` and `do_apply` is modelled as an explicit
`FS` value threaded through the executor.  Paths are plain strings, as in
the source, with helper functions mirroring `pathlib` accessors.
-/

/-- The size plus first-1KB view of a file's bytes that `filecmp` inside
`make_plan` reads (`os.path.getsize` and `fa.read(1024)`). -/
structure Content where
  size : Nat
  head : String
  deriving DecidableEq, Repr

/-- Filesystem state: an association list of existing files with their
content view, plus the set of existing directories. -/
structure FS where
  files : List (String × Content)
  dirs : List String
  deriving DecidableEq, Repr

/-- Lookup a file (`Path.exists` / `open` in the source). -/
def fsLookup (fs : FS) (p : String) : Option Content :=
  (fs.files.find? (fun e => e.1 == p)).map (fun e => e.2)

/-- `Path.exists()` on a file path. -/
def fsExistsF (fs : FS) (p : String) : Bool :=
  (fsLookup fs p).isSome

/-- Remove a file entry. -/
def fsRemoveFile (fs : FS) (p : String) : FS :=
  { fs with files := fs.files.filter (fun e => e.1 != p) }

/-- Create or overwrite a file entry. -/
def fsSetFile (fs : FS) (p : String) (c : Content) : FS :=
  { fs with files := (p, c) :: (fs.files.filter (fun e => e.1 != p)) }

/-- `shutil.move(src, dst)`: the content leaves `src` and lands on `dst`,
overwriting whatever was there.  The source always guards moves with an
existence check, so the missing-source case is modelled as a no-op. -/
def fsMove (fs : FS) (src dst : String) : FS :=
  match fsLookup fs src with
  | none => fs
  | some c => fsSetFile (fsRemoveFile fs src) dst c

/-- `Path.mkdir(parents=True, exist_ok=True)` (only the directory itself is
recorded; parent bookkeeping is irrelevant to every claim). -/
def fsMkdir (fs : FS) (d : String) : FS :=
  if d ∈ fs.dirs then fs else { fs with dirs := d :: fs.dirs }

/-- `pathlib.Path.name`: the component after the last slash. -/
def pathName (p : String) : String :=
  String.mk ((p.data.reverse.takeWhile (fun c => c != '/')).reverse)

/-- Index of the last dot of a filename, if any. -/
def lastDotIdx (cs : List Char) : Option Nat :=
  ((cs.enum.filter (fun e => e.2 == '.')).getLast?).map (fun e => e.1)

/-- `pathlib` stem/suffix split of a filename: the suffix starts at the
last dot provided that dot is neither the leading character nor the final
character of the name; otherwise the suffix is empty. -/
def pySplit (name : String) : String × String :=
  match lastDotIdx name.data with
  | some i =>
    if 0 < i ∧ i + 1 < name.data.length then
      (String.mk (name.data.take i), String.mk (name.data.drop i))
    else (name, "")
  | none => (name, "")

/-- ASCII lowering of one character (`str.lower` on extension characters). -/
def lowerChar (c : Char) : Char :=
  if 'A' ≤ c && c ≤ 'Z' then Char.ofNat (c.toNat + 32) else c

/-- `p.suffix.lower().lstrip(".")` from `file_type_rank`. -/
def extOf (p : String) : String :=
  String.mk ((((pySplit (pathName p)).2).data.map lowerChar).dropWhile (fun c => c == '.'))

/-- `str(a).startswith(str(b))` is `b.data.isPrefixOf a.data` here
(`String.isPrefixOf` does not reduce in the kernel, its list analogue does). -/
def strStarts (p pre : String) : Bool :=
  pre.data.isPrefixOf p.data

/-- A perceptual hash: `imagehash.phash` yields an 8×8 = 64-bit fingerprint. -/
abbrev Phash := { l : List Bool // l.length = 64 }

/-- Oracles for the external facilities consumed by the engine, one field
per impure source function. -/
structure Env where
  /-- `QUALITY_ORDER` configuration list. -/
  qualityOrder : List String
  /-- `resolution(p)` pixel count (`0` when the image cannot be read). -/
  px : String → Nat
  /-- `has_exif_datetime(p)`. -/
  hasExif : String → Bool
  /-- `p.stat().st_size`. -/
  sizeOf : String → Nat
  /-- `exif_yyyy_mm(p)` including its mtime fallback, e.g. `"2020/01"`. -/
  bucket : String → String
  /-- `phash(p)`: `None` when PIL cannot decode the image. -/
  phash : String → Option Phash
  /-- `int(time.time())` during planning. -/
  now : Nat

/-- `hamming(a, b)`: number of differing bits (`a - b` on `ImageHash`). -/
def hamming (a b : Phash) : Nat :=
  (List.zipWith (fun x y => x != y) a.1 b.1).count true

/-- `file_type_rank(p)`. -/
def file_type_rank (qualityOrder : List String) (p : String) : Nat :=
  let ext := extOf p
  let t := if ext ∈ ["dng", "cr2", "cr3", "nef", "arw"] then "raw"
    else if ext ∈ ["heic", "heif"] then "heic"
    else if ext ∈ ["jpg", "jpeg"] then "jpeg"
    else if ext ∈ ["png"] then "png"
    else "other"
  if t ∈ qualityOrder then qualityOrder.findIdx (fun x => x == t) else qualityOrder.length

/-- The quality tuple `(t, -px, 0 if not ex else -1, -sz)`; smaller = better. -/
abbrev Score := Nat × Int × Int × Int

/-- `file_score(p)`. -/
def file_score (env : Env) (p : String) : Score :=
  (file_type_rank env.qualityOrder p,
   -(env.px p : Int),
   if env.hasExif p then -1 else 0,
   -(env.sizeOf p : Int))

/-- Python lexicographic `<` on the score tuple. -/
def scoreLt (a b : Score) : Bool :=
  decide (a.1 < b.1 ∨ (a.1 = b.1 ∧ (a.2.1 < b.2.1 ∨ (a.2.1 = b.2.1 ∧
    (a.2.2.1 < b.2.2.1 ∨ (a.2.2.1 = b.2.2.1 ∧ a.2.2.2 < b.2.2.2))))))

/-- `better(a, b)`: the path with the lower score; ties yield `b`. -/
def better (env : Env) (a b : String) : String :=
  if scoreLt (file_score env a) (file_score env b) then a else b

/-- One decision record `(s, master, action, reason)` as accumulated in
`pairs_exact` / `pairs_sim`. -/
structure Decision where
  src : String
  master : Option String
  action : String
  reason : String
  deriving DecidableEq, Repr

/-- The per-source-member body of the exact-duplicate loop: fold `better`
over `has_master + [s]` starting from the first candidate; if the source
member wins, pick the worst-scoring master member as replacement target. -/
def groupDecide (env : Env) (hasMaster : List String) (s : String) : Decision :=
  match hasMaster with
  | [] => ⟨s, none, "", ""⟩   -- unreachable: callers guard on a nonempty master subset
  | m0 :: ms =>
    let best := (ms ++ [s]).foldl (fun b c => better env b c) m0
    if best == s then
      let worst := ms.foldl (fun w m => if scoreLt (file_score env w) (file_score env m) then m else w) m0
      ⟨s, some worst, "REPLACE_MASTER_WITH_SOURCE", "exact_dup_better_source"⟩
    else ⟨s, some best, "KEEP_MASTER", "exact_dup_master_better"⟩

/-- Decisions contributed by one jdupes group (lines 186–207 of the source):
split the group by path prefix, skip it unless both sides are inhabited,
then decide every source member. -/
def groupDecisions (env : Env) (masterRoot sourceRoot : String) (g : List String) : List Decision :=
  let hasMaster := g.filter (fun p => strStarts p masterRoot)
  let hasSource := g.filter (fun p => strStarts p sourceRoot)
  if hasMaster.isEmpty || hasSource.isEmpty then []
  else hasSource.map (groupDecide env hasMaster)

/-- `pairs_exact`: decisions of all groups, in group order. -/
def pairs_exact (env : Env) (masterRoot sourceRoot : String) (groups : List (List String)) : List Decision :=
  groups.flatMap (groupDecisions env masterRoot sourceRoot)

/-- The nearest-master scan of the near-duplicate loop (lines 231–238):
fold over all master files, skipping absent hashes, keeping the first
strictly-smaller Hamming distance; initial best distance 999. -/
def nearScan (env : Env) (sh : Phash) (masterFiles : List String) : Option String × Nat :=
  masterFiles.foldl (fun (b : Option String × Nat) m =>
    match env.phash m with
    | none => b
    | some mh => let d := hamming sh mh; if d < b.2 then (some m, d) else b)
    ((none : Option String), 999)

/-- The classification of one unresolved source file by the scan result:
no hash, below-threshold match, or unique. -/
def nearDecide (env : Env) (threshold : Nat) (masterFiles : List String) (s : String) : Decision :=
  match env.phash s with
  | none => ⟨s, none, "MOVE_SOURCE", "no_phash"⟩
  | some sh =>
    let best := nearScan env sh masterFiles
    match best.1 with
    | some bm =>
      if best.2 ≤ threshold then
        let winner := better env s bm
        if winner == s then
          ⟨s, some bm, "REPLACE_MASTER_WITH_SOURCE", "phash_dup_d" ++ toString best.2 ++ "_better_source"⟩
        else
          ⟨s, some bm, "KEEP_MASTER", "phash_dup_d" ++ toString best.2 ++ "_master_better"⟩
      else ⟨s, none, "MOVE_SOURCE", "unique_vs_master"⟩
    | none => ⟨s, none, "MOVE_SOURCE", "unique_vs_master"⟩

/-- `pairs_sim`: one decision per remaining source file, in order. -/
def pairs_sim (env : Env) (threshold : Nat) (masterFiles remaining : List String) : List Decision :=
  remaining.map (nearDecide env threshold masterFiles)

/-- `filecmp(a, b)` inside `make_plan`: size equality plus first-1KB
comparison; any read failure (missing file) yields `False`. -/
def filecmp (fs : FS) (a b : String) : Bool :=
  match fsLookup fs a, fsLookup fs b with
  | some ca, some cb => ca.size == cb.size && ca.head == cb.head
  | _, _ => false

/-- `target_path_for(p)` (lines 262–269): bucket directory plus original
filename; if occupied by content-distinct bytes, append `_<timestamp>`
before the suffix. -/
def target_path_for (env : Env) (fs : FS) (masterRoot : String) (p : String) : String × String :=
  let rel := env.bucket p
  let dest_dir := masterRoot ++ "/" ++ rel
  let dest := dest_dir ++ "/" ++ pathName p
  if fsExistsF fs dest && !(filecmp fs p dest) then
    let sp := pySplit (pathName p)
    (dest_dir, dest_dir ++ "/" ++ sp.1 ++ "_" ++ toString env.now ++ sp.2)
  else (dest_dir, dest)

/-- One CSV row of the plan artifact.  `master`/`quarantine_path` use
`Option` for the empty-string cells (`str(m) if m else ""`). -/
structure PlanRow where
  action : String
  src : String
  master : Option String
  target_dir : String
  target_path : String
  quarantine_path : Option String
  reason : String
  src_score : Score
  master_score : Option Score
  deriving DecidableEq, Repr

/-- Decoration of a decision into a plan row (lines 276–287): target
resolution plus quarantine-path allocation for replace decisions. -/
def rowOf (env : Env) (fs : FS) (masterRoot quarRoot : String) (d : Decision) : PlanRow :=
  let tp := target_path_for env fs masterRoot d.src
  let qpath :=
    match d.master with
    | some m =>
      if d.action == "REPLACE_MASTER_WITH_SOURCE" then
        let q := quarRoot ++ "/" ++ pathName m
        some (if fsExistsF fs q then
          quarRoot ++ "/" ++ (pySplit (pathName m)).1 ++ "_" ++ toString env.now ++ (pySplit (pathName m)).2
        else q)
      else none
    | none => none
  ⟨d.action, d.src, d.master, tp.1, tp.2, qpath, d.reason,
   file_score env d.src, d.master.map (file_score env)⟩

/-- `make_plan` (decision core, lines 168–288): exact-duplicate decisions
first, then near-duplicate decisions over the source files not resolved
exactly; every decision becomes one plan row.  `fs` is the filesystem at
planning time (planning writes no file, so it is constant through the
row loop). -/
def make_plan (env : Env) (fs : FS) (masterRoot sourceRoot quarRoot : String)
    (masterFiles sourceFiles : List String) (groups : List (List String))
    (threshold : Nat) : List PlanRow :=
  let pe := pairs_exact env masterRoot sourceRoot groups
  let exact_src_dups := pe.map (fun d => d.src)
  let remaining := sourceFiles.filter (fun p => !(exact_src_dups.contains p))
  let ps := pairs_sim env threshold masterFiles remaining
  (pe ++ ps).map (rowOf env fs masterRoot quarRoot)

/-- Mutable state of `do_apply`: filesystem, tallies, and the ordered
trace of `shutil.move` calls actually performed. -/
structure ApplyState where
  fs : FS
  moved : Nat
  replaced : Nat
  kept : Nat
  trace : List (String × String)
  deriving DecidableEq, Repr

/-- The `MOVE_SOURCE` arm (lines 330–333). -/
def applyMoveSource (dryRun : Bool) (st : ApplyState) (row : PlanRow) : ApplyState :=
  let st1 :=
    if !dryRun && fsExistsF st.fs row.src then
      { st with fs := fsMove st.fs row.src row.target_path,
                trace := st.trace ++ [(row.src, row.target_path)] }
    else st
  { st1 with moved := st1.moved + 1 }

/-- The `REPLACE_MASTER_WITH_SOURCE` arm (lines 335–342): quarantine the
still-present master first, then move the still-present source. -/
def applyReplace (dryRun : Bool) (quarRoot : String) (st : ApplyState) (row : PlanRow) (m : String) : ApplyState :=
  let st2 :=
    if dryRun then st
    else
      let stq :=
        match row.quarantine_path with
        | some qp =>
          if fsExistsF st.fs m then
            { st with fs := fsMove (fsMkdir st.fs quarRoot) m qp,
                      trace := st.trace ++ [(m, qp)] }
          else st
        | none => st
      if fsExistsF stq.fs row.src then
        { stq with fs := fsMove stq.fs row.src row.target_path,
                   trace := stq.trace ++ [(row.src, row.target_path)] }
      else stq
  { st2 with replaced := st2.replaced + 1 }

/-- Processing of one CSV row by `do_apply` (lines 316–342).  `KEEP_MASTER`
is terminal; every other action first ensures the target directory exists
(also under dry-run), then dispatches. -/
def applyRow (dryRun : Bool) (quarRoot : String) (st : ApplyState) (row : PlanRow) : ApplyState :=
  if row.action == "KEEP_MASTER" then { st with kept := st.kept + 1 }
  else
    let st1 := { st with fs := fsMkdir st.fs row.target_dir }
    if row.action == "MOVE_SOURCE" then applyMoveSource dryRun st1 row
    else
      match row.master with
      | some m =>
        if row.action == "REPLACE_MASTER_WITH_SOURCE" then applyReplace dryRun quarRoot st1 row m
        else st1
      | none => st1

/-- Folding `applyRow` over the plan rows. -/
def applyRows (dryRun : Bool) (quarRoot : String) (rows : List PlanRow) (st : ApplyState) : ApplyState :=
  rows.foldl (applyRow dryRun quarRoot) st

/-- Outcome of one `do_apply` invocation: final filesystem, tallies, move
trace and process exit code. -/
structure ApplyResult where
  fs : FS
  moved : Nat
  replaced : Nat
  kept : Nat
  trace : List (String × String)
  exitCode : Nat
  deriving DecidableEq, Repr

/-- `do_apply` (lines 308–344): a missing plan artifact aborts with exit
status 2 before touching anything; otherwise every row is replayed. -/
def do_apply (plan : Option (List PlanRow)) (dryRun : Bool) (quarRoot : String) (fs : FS) : ApplyResult :=
  match plan with
  | none => ⟨fs, 0, 0, 0, [], 2⟩
  | some rows =>
    let st := applyRows dryRun quarRoot rows ⟨fs, 0, 0, 0, []⟩
    ⟨st.fs, st.moved, st.replaced, st.kept, st.trace, 0⟩

/-! ### Basic facts about the executor state -/

theorem fsMkdir_files (fs : FS) (d : String) : (fsMkdir fs d).files = fs.files := by
  unfold fsMkdir
  split <;> rfl

theorem applyRow_moved (dr : Bool) (q : String) (st : ApplyState) (row : PlanRow) :
    (applyRow dr q st row).moved = st.moved + (if row.action = "MOVE_SOURCE" then 1 else 0) := by
  unfold applyRow applyMoveSource applyReplace
  rcases hm : row.master with _ | m <;> rcases hq : row.quarantine_path with _ | qp <;>
    by_cases h1 : row.action = "KEEP_MASTER" <;> by_cases h2 : row.action = "MOVE_SOURCE" <;>
      simp [h1, h2] <;> split_ifs <;> simp_all

theorem applyRow_replaced (dr : Bool) (q : String) (st : ApplyState) (row : PlanRow) :
    (applyRow dr q st row).replaced =
      st.replaced + (if row.action = "REPLACE_MASTER_WITH_SOURCE" ∧ row.master.isSome then 1 else 0) := by
  unfold applyRow applyMoveSource applyReplace
  rcases hm : row.master with _ | m <;> rcases hq : row.quarantine_path with _ | qp <;>
    by_cases h1 : row.action = "KEEP_MASTER" <;> by_cases h2 : row.action = "MOVE_SOURCE" <;>
      by_cases h3 : row.action = "REPLACE_MASTER_WITH_SOURCE" <;>
        simp [h1, h2, h3] <;> split_ifs <;> simp_all

theorem applyRow_kept (dr : Bool) (q : String) (st : ApplyState) (row : PlanRow) :
    (applyRow dr q st row).kept = st.kept + (if row.action = "KEEP_MASTER" then 1 else 0) := by
  unfold applyRow applyMoveSource applyReplace
  rcases hm : row.master with _ | m <;> rcases hq : row.quarantine_path with _ | qp <;>
    by_cases h1 : row.action = "KEEP_MASTER" <;> by_cases h2 : row.action = "MOVE_SOURCE" <;>
      simp [h1, h2] <;> split_ifs <;> simp_all

theorem applyRows_cons (dr : Bool) (q : String) (r : PlanRow) (rs : List PlanRow) (st : ApplyState) :
    applyRows dr q (r :: rs) st = applyRows dr q rs (applyRow dr q st r) := rfl

theorem applyRows_moved (dr : Bool) (q : String) (rows : List PlanRow) (st : ApplyState) :
    (applyRows dr q rows st).moved =
      st.moved + rows.countP (fun r => r.action == "MOVE_SOURCE") := by
  induction rows generalizing st with
  | nil => simp [applyRows]
  | cons r rs ih =>
    rw [applyRows_cons, ih, applyRow_moved, List.countP_cons]
    by_cases h : r.action = "MOVE_SOURCE" <;> simp [h] <;> omega

theorem applyRows_replaced (dr : Bool) (q : String) (rows : List PlanRow) (st : ApplyState) :
    (applyRows dr q rows st).replaced =
      st.replaced + rows.countP (fun r => r.action == "REPLACE_MASTER_WITH_SOURCE" && r.master.isSome) := by
  induction rows generalizing st with
  | nil => simp [applyRows]
  | cons r rs ih =>
    rw [applyRows_cons, ih, applyRow_replaced, List.countP_cons]
    by_cases h : r.action = "REPLACE_MASTER_WITH_SOURCE" <;>
      rcases hm : r.master with _ | m <;> simp [h, hm] <;> omega

theorem applyRows_kept (dr : Bool) (q : String) (rows : List PlanRow) (st : ApplyState) :
    (applyRows dr q rows st).kept =
      st.kept + rows.countP (fun r => r.action == "KEEP_MASTER") := by
  induction rows generalizing st with
  | nil => simp [applyRows]
  | cons r rs ih =>
    rw [applyRows_cons, ih, applyRow_kept, List.countP_cons]
    by_cases h : r.action = "KEEP_MASTER" <;> simp [h] <;> omega

theorem applyRow_dryRun_inert (q : String) (st : ApplyState) (row : PlanRow) :
    (applyRow true q st row).fs.files = st.fs.files ∧ (applyRow true q st row).trace = st.trace := by
  unfold applyRow applyMoveSource applyReplace
  rcases hm : row.master with _ | m <;>
    by_cases h1 : row.action = "KEEP_MASTER" <;> by_cases h2 : row.action = "MOVE_SOURCE" <;>
      by_cases h3 : row.action = "REPLACE_MASTER_WITH_SOURCE" <;>
        simp [h1, h2, h3, fsMkdir_files]

theorem applyRows_dryRun_inert (q : String) (rows : List PlanRow) (st : ApplyState) :
    (applyRows true q rows st).fs.files = st.fs.files ∧ (applyRows true q rows st).trace = st.trace := by
  induction rows generalizing st with
  | nil => exact ⟨rfl, rfl⟩
  | cons r rs ih =>
    rw [applyRows_cons]
    have h := applyRow_dryRun_inert q st r
    have h2 := ih (applyRow true q st r)
    exact ⟨h2.1.trans h.1, h2.2.trans h.2⟩

/-! ### Properties of the score order -/

theorem scoreLt_irrefl (a : Score) : scoreLt a a = false := by
  obtain ⟨a1, a2, a3, a4⟩ := a
  simp [scoreLt]

theorem scoreLt_asymm (a b : Score) (h : scoreLt a b = true) : scoreLt b a = false := by
  obtain ⟨a1, a2, a3, a4⟩ := a
  obtain ⟨b1, b2, b3, b4⟩ := b
  simp [scoreLt] at h ⊢
  omega

theorem scoreLt_total (a b : Score) (h : a ≠ b) : scoreLt a b = true ∨ scoreLt b a = true := by
  obtain ⟨a1, a2, a3, a4⟩ := a
  obtain ⟨b1, b2, b3, b4⟩ := b
  simp [scoreLt]
  simp [Prod.ext_iff] at h
  omega

/-- Uniform oracle environment: every path carries the same metadata, so
byte-identical copies (same extension) receive exactly equal scores. -/
def envA : Env :=
  { qualityOrder := ["raw", "heic", "jpeg", "png", "other"],
    px := fun _ => 960000, hasExif := fun _ => true, sizeOf := fun _ => 2097152,
    bucket := fun _ => "2019/07", phash := fun _ => none, now := 1700000000 }

/-- Claim C7: `better` returns the strictly lower-scored file, returns the
second argument on an exact score tie (in both argument orders), and is
independent of argument order whenever the scores differ. -/
theorem c7_better_lower_tie_second (env : Env) (a b : String) :
    (scoreLt (file_score env a) (file_score env b) = true →
      better env a b = a ∧ better env b a = a) ∧
    (scoreLt (file_score env b) (file_score env a) = true →
      better env a b = b ∧ better env b a = b) ∧
    (file_score env a = file_score env b →
      better env a b = b ∧ better env b a = a) ∧
    (file_score env a ≠ file_score env b → better env a b = better env b a) := by
  refine ⟨?_, ?_, ?_, ?_⟩
  · intro h
    have h2 := scoreLt_asymm _ _ h
    unfold better
    simp [h, h2]
  · intro h
    have h2 := scoreLt_asymm _ _ h
    unfold better
    simp [h, h2]
  · intro h
    unfold better
    simp [h, scoreLt_irrefl]
  · intro h
    rcases scoreLt_total _ _ h with ht | ht
    · have h2 := scoreLt_asymm _ _ ht
      unfold better
      simp [ht, h2]
    · have h2 := scoreLt_asymm _ _ ht
      unfold better
      simp [ht, h2]

/-- Witness for C7 at a concrete exact tie: both orders pick the second
argument. -/
theorem c7_better_lower_tie_second_witness :
    better envA "/S/vacation.jpg" "/M/vacation.jpg" = "/M/vacation.jpg" ∧
    better envA "/M/vacation.jpg" "/S/vacation.jpg" = "/S/vacation.jpg" := by
  have h := (c7_better_lower_tie_second envA "/S/vacation.jpg" "/M/vacation.jpg").2.2.1 (by decide)
  exact ⟨h.1, h.2⟩

/-- Claim C1 (the code contradicts it): for a group holding one master and
one byte-identical source member — equal quality scores, the spec's §8
example — the exact-duplicate resolver emits REPLACE_MASTER_WITH_SOURCE
with reason `exact_dup_better_source`, not the claimed KEEP_MASTER with
reason `exact_dup_master_better`: the `better` fold ties towards the
source member, which is the last candidate. -/
theorem c1_exact_tie_emits_replace :
    file_score envA "/S/vacation.jpg" = file_score envA "/M/vacation.jpg" ∧
    pairs_exact envA "/M" "/S" [["/M/vacation.jpg", "/S/vacation.jpg"]] =
      [⟨"/S/vacation.jpg", some "/M/vacation.jpg",
        "REPLACE_MASTER_WITH_SOURCE", "exact_dup_better_source"⟩] := by
  decide

/-- Claim C9: applying with no plan artifact reports exit status 2 (nonzero)
and neither mutates the filesystem nor tallies or moves anything. -/
theorem c9_missing_plan_fatal (dryRun : Bool) (quarRoot : String) (fs : FS) :
    (do_apply none dryRun quarRoot fs).exitCode ≠ 0 ∧
    (do_apply none dryRun quarRoot fs).fs = fs ∧
    (do_apply none dryRun quarRoot fs).moved = 0 ∧
    (do_apply none dryRun quarRoot fs).replaced = 0 ∧
    (do_apply none dryRun quarRoot fs).kept = 0 ∧
    (do_apply none dryRun quarRoot fs).trace = [] := by
  simp [do_apply]

/-- Claim C10: the tallies count plan entries per action kind — `moved` is
the number of MOVE_SOURCE rows and `replaced` the number of
REPLACE_MASTER_WITH_SOURCE rows with a recorded master — for every
dry-run setting and every filesystem state, hence also when the
referenced files no longer exist. -/
theorem c10_tallies_count_entries (rows : List PlanRow) (dryRun : Bool) (quarRoot : String) (fs : FS) :
    (do_apply (some rows) dryRun quarRoot fs).moved =
      rows.countP (fun r => r.action == "MOVE_SOURCE") ∧
    (do_apply (some rows) dryRun quarRoot fs).replaced =
      rows.countP (fun r => r.action == "REPLACE_MASTER_WITH_SOURCE" && r.master.isSome) ∧
    (do_apply (some rows) dryRun quarRoot fs).kept =
      rows.countP (fun r => r.action == "KEEP_MASTER") := by
  refine ⟨?_, ?_, ?_⟩
  · show (applyRows dryRun quarRoot rows ⟨fs, 0, 0, 0, []⟩).moved = _
    rw [applyRows_moved]
    simp
  · show (applyRows dryRun quarRoot rows ⟨fs, 0, 0, 0, []⟩).replaced = _
    rw [applyRows_replaced]
    simp
  · show (applyRows dryRun quarRoot rows ⟨fs, 0, 0, 0, []⟩).kept = _
    rw [applyRows_kept]
    simp

/-- A MOVE_SOURCE plan row used to exercise the dry-run executor. -/
def rowMv : PlanRow :=
  ⟨"MOVE_SOURCE", "/S/a.jpg", none, "/M/2019/07", "/M/2019/07/a.jpg", none,
   "no_phash", (2, -960000, -1, -2097152), none⟩

/-- Filesystem holding only the source file of `rowMv`. -/
def fsMv : FS := ⟨[("/S/a.jpg", ⟨2097152, "JFIF"⟩)], []⟩

/-- Claim C3 counterexample: dry-run apply over a one-entry MOVE_SOURCE plan
reports moved = 1 yet does mutate the filesystem — it creates the target
directory — so "no filesystem mutation of any kind" is false. -/
theorem c3_dryRun_counterexample :
    (do_apply (some [rowMv]) true "/quarantine" fsMv).moved = 1 ∧
    (do_apply (some [rowMv]) true "/quarantine" fsMv).fs ≠ fsMv := by
  decide

/-- Claim C3 (amended): with dry-run enabled, apply tallies every entry and
performs no file move or deletion — the file table is unchanged and the
move trace empty, so every source file remains at its original path — but
it may still create target directories. -/
theorem c3_dryRun_tallies_without_moves (rows : List PlanRow) (quarRoot : String) (fs : FS) :
    (do_apply (some rows) true quarRoot fs).fs.files = fs.files ∧
    (do_apply (some rows) true quarRoot fs).trace = [] ∧
    (do_apply (some rows) true quarRoot fs).moved =
      rows.countP (fun r => r.action == "MOVE_SOURCE") ∧
    (do_apply (some rows) true quarRoot fs).replaced =
      rows.countP (fun r => r.action == "REPLACE_MASTER_WITH_SOURCE" && r.master.isSome) ∧
    (do_apply (some rows) true quarRoot fs).kept =
      rows.countP (fun r => r.action == "KEEP_MASTER") := by
  have h := applyRows_dryRun_inert quarRoot rows ⟨fs, 0, 0, 0, []⟩
  refine ⟨h.1, h.2, ?_, ?_, ?_⟩
  · show (applyRows true quarRoot rows ⟨fs, 0, 0, 0, []⟩).moved = _
    rw [applyRows_moved]
    simp
  · show (applyRows true quarRoot rows ⟨fs, 0, 0, 0, []⟩).replaced = _
    rw [applyRows_replaced]
    simp
  · show (applyRows true quarRoot rows ⟨fs, 0, 0, 0, []⟩).kept = _
    rw [applyRows_kept]
    simp

/-! ### Target path resolution -/

theorem str_mk_append (a b : List Char) : String.mk a ++ String.mk b = String.mk (a ++ b) := rfl

theorem str_mk_data (s : String) : String.mk s.data = s := rfl

theorem str_append_empty (s : String) : s ++ "" = s := by
  obtain ⟨cs⟩ := s
  show String.mk cs ++ String.mk [] = String.mk cs
  rw [str_mk_append, List.append_nil]

theorem pySplit_append (n : String) : (pySplit n).1 ++ (pySplit n).2 = n := by
  unfold pySplit
  split
  all_goals try split
  all_goals first
    | exact ((str_mk_append _ _).trans
        (congrArg String.mk (List.take_append_drop _ _))).trans (str_mk_data n)
    | exact str_append_empty n

/-- Two content-distinct source files sharing a filename, mapped to the
same capture bucket; nothing occupies the nominal target yet. -/
def fsC2 : FS := ⟨[("/S/x/a.jpg", ⟨100, "AAA"⟩), ("/S/y/a.jpg", ⟨200, "BBB"⟩)], []⟩

/-- Claim C2 counterexample: the plan built for two content-distinct source
files with the same filename and capture bucket assigns both entries the
same non-empty target path — collision handling only consults the
filesystem, never the plan under construction. -/
theorem c2_shared_target_counterexample :
    ((make_plan envA fsC2 "/M" "/S" "/q" [] ["/S/x/a.jpg", "/S/y/a.jpg"] [] 8).map
      (fun r => r.target_path)) = ["/M/2019/07/a.jpg", "/M/2019/07/a.jpg"] ∧
    ("/M/2019/07/a.jpg" : String) ≠ "" ∧
    fsLookup fsC2 "/S/x/a.jpg" ≠ fsLookup fsC2 "/S/y/a.jpg" := by
  decide

/-- Claim C2 (amended): per entry, collision avoidance holds against the
filesystem: whenever a file already occupies the nominal target path with
content that differs from the incoming file (size or first-1KB prefix),
the resolved target path differs from the nominal one, because a
`_<timestamp>` infix is inserted before the suffix. Distinct target paths
across two entries of the same plan are not guaranteed. -/
theorem c2_resolver_avoids_occupied_nominal_path (env : Env) (fs : FS) (masterRoot p : String)
    (hex : fsExistsF fs ((masterRoot ++ "/" ++ env.bucket p) ++ "/" ++ pathName p) = true)
    (hne : filecmp fs p ((masterRoot ++ "/" ++ env.bucket p) ++ "/" ++ pathName p) = false) :
    (target_path_for env fs masterRoot p).2 ≠
      (masterRoot ++ "/" ++ env.bucket p) ++ "/" ++ pathName p := by
  have hres : (target_path_for env fs masterRoot p).2 =
      (masterRoot ++ "/" ++ env.bucket p) ++ "/" ++ (pySplit (pathName p)).1 ++ "_" ++
        toString env.now ++ (pySplit (pathName p)).2 := by
    unfold target_path_for
    simp only [hex, hne, Bool.not_false, Bool.and_true, if_true]
  rw [hres]
  intro heq
  have hl := congrArg String.length heq
  have hsp := congrArg String.length (pySplit_append (pathName p))
  have hu : ("_" : String).length = 1 := rfl
  rw [String.length_append] at hsp
  simp only [String.length_append] at hl
  omega

/-- Filesystem where the nominal target of `/S/a.jpg` is occupied by
different content. -/
def fsC2b : FS := ⟨[("/S/a.jpg", ⟨100, "AAA"⟩), ("/M/2019/07/a.jpg", ⟨200, "BBB"⟩)], []⟩

/-- Witness for the amended C2 at a concrete occupied target. -/
theorem c2_resolver_avoids_occupied_nominal_path_witness :
    (target_path_for envA fsC2b "/M" "/S/a.jpg").2 ≠
      ("/M" ++ "/" ++ envA.bucket "/S/a.jpg") ++ "/" ++ pathName "/S/a.jpg" :=
  c2_resolver_avoids_occupied_nominal_path envA fsC2b "/M" "/S/a.jpg" (by decide) (by decide)

/-! ### Filesystem lemmas -/

theorem lookupList_remove (l : List (String × Content)) (p q : String) :
    ((l.filter (fun e => e.1 != p)).find? (fun e => e.1 == q)).map (fun e => e.2) =
      if q = p then none else (l.find? (fun e => e.1 == q)).map (fun e => e.2) := by
  induction l with
  | nil => simp
  | cons x xs ih =>
    by_cases hqp : q = p
    · rw [if_pos hqp] at ih ⊢
      by_cases hx : x.1 = p
      · have hb : (x.1 != p) = false := by simp [hx]
        simp only [List.filter_cons, hb, Bool.false_eq_true, if_false]
        exact ih
      · have hb : (x.1 != p) = true := by simp [hx]
        have hq2 : (x.1 == q) = false := by
          subst hqp
          simp [hx]
        simp only [List.filter_cons, hb, if_true, List.find?_cons, hq2]
        exact ih
    · rw [if_neg hqp] at ih ⊢
      by_cases hxp : x.1 = p
      · have hb : (x.1 != p) = false := by simp [hxp]
        have hxq : (x.1 == q) = false := by
          rw [hxp]
          exact beq_eq_false_iff_ne.mpr (fun h => hqp h.symm)
        simp only [List.filter_cons, hb, Bool.false_eq_true, if_false, List.find?_cons, hxq]
        exact ih
      · have hb : (x.1 != p) = true := by simp [hxp]
        by_cases hxq : x.1 = q
        · have hq2 : (x.1 == q) = true := by simp [hxq]
          simp only [List.filter_cons, hb, if_true, List.find?_cons, hq2]
        · have hq2 : (x.1 == q) = false := by simp [hxq]
          simp only [List.filter_cons, hb, if_true, List.find?_cons, hq2]
          exact ih

theorem fsLookup_remove (fs : FS) (p q : String) :
    fsLookup (fsRemoveFile fs p) q = if q = p then none else fsLookup fs q := by
  unfold fsLookup fsRemoveFile
  exact lookupList_remove fs.files p q

theorem fsLookup_set (fs : FS) (p : String) (c : Content) (q : String) :
    fsLookup (fsSetFile fs p c) q = if q = p then some c else fsLookup fs q := by
  unfold fsLookup fsSetFile
  by_cases hqp : q = p
  · have hb : ((p, c).1 == q) = true := by simp [hqp]
    simp only [List.find?_cons, hb, if_pos hqp]
    rfl
  · have hb : ((p, c).1 == q) = false := by
      simp only [beq_eq_false_iff_ne]
      exact fun h => hqp h.symm
    simp only [List.find?_cons, hb, if_neg hqp]
    exact (lookupList_remove fs.files p q).trans (by rw [if_neg hqp])

theorem fsMkdir_dirs_mem (fs : FS) (d : String) : d ∈ (fsMkdir fs d).dirs := by
  unfold fsMkdir
  split <;> simp_all

theorem fsExistsF_mkdir (fs : FS) (d q : String) :
    fsExistsF (fsMkdir fs d) q = fsExistsF fs q := by
  unfold fsExistsF fsLookup
  rw [fsMkdir_files]

theorem fsMove_dirs (fs : FS) (a b : String) : (fsMove fs a b).dirs = fs.dirs := by
  unfold fsMove fsSetFile fsRemoveFile
  split <;> rfl

theorem fsMkdir_dirs_mono (fs : FS) (d e : String) (h : e ∈ fs.dirs) : e ∈ (fsMkdir fs d).dirs := by
  unfold fsMkdir
  split <;> simp_all

theorem fsLookup_move_src (fs : FS) (a b : String) (hab : a ≠ b) :
    fsLookup (fsMove fs a b) a = none := by
  unfold fsMove
  rcases h : fsLookup fs a with _ | c
  · exact h
  · rw [fsLookup_set, if_neg hab, fsLookup_remove, if_pos rfl]

theorem fsLookup_move_other (fs : FS) (a b q : String) (h1 : q ≠ a) (h2 : q ≠ b) :
    fsLookup (fsMove fs a b) q = fsLookup fs q := by
  unfold fsMove
  rcases h : fsLookup fs a with _ | c
  · rfl
  · rw [fsLookup_set, if_neg h2, fsLookup_remove, if_neg h1]

theorem fsExistsF_move_keep (fs : FS) (a b q : String) (h : fsExistsF fs q = true) (hqa : q ≠ a) :
    fsExistsF (fsMove fs a b) q = true := by
  by_cases hqb : q = b
  · subst hqb
    unfold fsMove
    rcases hl : fsLookup fs a with _ | c
    · exact h
    · unfold fsExistsF
      rw [fsLookup_set, if_pos rfl]
      rfl
  · unfold fsExistsF
    rw [fsLookup_move_other fs a b q hqa hqb]
    exact h

/-- Claim C6: replaying a REPLACE_MASTER_WITH_SOURCE entry in live mode
with the matched master and the source both still present performs exactly
two moves, and the quarantine move of the displaced master strictly
precedes the move of the source into the target path. -/
theorem c6_quarantine_before_source_move (quarRoot : String) (st : ApplyState) (row : PlanRow)
    (m qp : String)
    (ha : row.action = "REPLACE_MASTER_WITH_SOURCE") (hm : row.master = some m)
    (hq : row.quarantine_path = some qp)
    (hmex : fsExistsF st.fs m = true) (hsex : fsExistsF st.fs row.src = true)
    (hsm : row.src ≠ m) :
    (applyRow false quarRoot st row).trace =
      st.trace ++ [(m, qp), (row.src, row.target_path)] := by
  obtain ⟨act, src, master, tdir, tpath, qpath, reason, ss, ms⟩ := row
  simp only at ha hm hq hmex hsex hsm
  subst ha
  subst hm
  subst hq
  unfold applyRow applyReplace
  have h1 : fsExistsF (fsMkdir st.fs tdir) m = true := by rw [fsExistsF_mkdir]; exact hmex
  have h2 : fsExistsF (fsMove (fsMkdir (fsMkdir st.fs tdir) quarRoot) m qp) src = true := by
    apply fsExistsF_move_keep
    · rw [fsExistsF_mkdir, fsExistsF_mkdir]
      exact hsex
    · exact hsm
  simp only [h1]
  simp only [if_true]
  rw [if_pos h2]
  simp

/-- A REPLACE row with distinct source, master, target and quarantine
paths, with both referenced files present. -/
def rowC6 : PlanRow :=
  ⟨"REPLACE_MASTER_WITH_SOURCE", "/S/b.jpg", some "/M/2019/07/b.jpg", "/M/2019/07",
   "/M/2019/07/b_1700000000.jpg", some "/quarantine/b.jpg", "exact_dup_better_source",
   (2, -960000, -1, -2097152), some (2, -960000, -1, -2097152)⟩

/-- Filesystem for the C6 witness: both files of `rowC6` exist. -/
def fsC6 : FS := ⟨[("/S/b.jpg", ⟨7, "NEW"⟩), ("/M/2019/07/b.jpg", ⟨9, "OLD"⟩)], []⟩

/-- Witness for C6: on a concrete replace entry the trace lists the
quarantine move first, then the source move. -/
theorem c6_quarantine_before_source_move_witness :
    (applyRow false "/quarantine" ⟨fsC6, 0, 0, 0, []⟩ rowC6).trace =
      [("/M/2019/07/b.jpg", "/quarantine/b.jpg"), ("/S/b.jpg", "/M/2019/07/b_1700000000.jpg")] :=
  c6_quarantine_before_source_move "/quarantine" ⟨fsC6, 0, 0, 0, []⟩ rowC6
    "/M/2019/07/b.jpg" "/quarantine/b.jpg" rfl rfl rfl (by decide) (by decide) (by decide)

/-! ### Characterization of the nearest-master scan -/

/-- Statement-side view of the scan's input: the master files that have a
hash, paired with their Hamming distance to `sh`, in enumeration order. -/
def masterDists (env : Env) (sh : Phash) (masterFiles : List String) : List (String × Nat) :=
  masterFiles.filterMap (fun m => (env.phash m).map (fun mh => (m, hamming sh mh)))

/-- The scan over already-hashed candidates from an arbitrary accumulator. -/
def minScan (a : String × Nat) (l : List (String × Nat)) : String × Nat :=
  l.foldl (fun b x => if x.2 < b.2 then x else b) a

theorem hamming_lt_999 (a b : Phash) : hamming a b < 999 := by
  have h1 : hamming a b ≤ (List.zipWith (fun x y => x != y) a.1 b.1).length :=
    List.count_le_length _ _
  rw [List.length_zipWith, a.2, b.2] at h1
  omega

theorem masterDists_snd_lt (env : Env) (sh : Phash) (ms : List String) :
    ∀ x ∈ masterDists env sh ms, x.2 < 999 := by
  intro x hx
  unfold masterDists at hx
  rw [List.mem_filterMap] at hx
  obtain ⟨m, hm, hmap⟩ := hx
  rcases h : env.phash m with _ | mh
  · rw [h] at hmap
    cases hmap
  · rw [h] at hmap
    simp only [Option.map_some'] at hmap
    have hx := Option.some.inj hmap
    rw [← hx]
    exact hamming_lt_999 sh mh

theorem nearScan_eq_foldDists (env : Env) (sh : Phash) (ms : List String)
    (init : Option String × Nat) :
    ms.foldl (fun (b : Option String × Nat) m =>
      match env.phash m with
      | none => b
      | some mh => let d := hamming sh mh; if d < b.2 then (some m, d) else b) init =
    (masterDists env sh ms).foldl
      (fun (b : Option String × Nat) x => if x.2 < b.2 then (some x.1, x.2) else b) init := by
  unfold masterDists
  induction ms generalizing init with
  | nil => rfl
  | cons m ms ih =>
    rcases h : env.phash m with _ | mh
    · simp only [List.foldl_cons, List.filterMap_cons, h, Option.map_none']
      exact ih init
    · simp only [List.foldl_cons, List.filterMap_cons, h, Option.map_some']
      exact ih _

theorem minScan_opt (l : List (String × Nat)) (m0 : String) (d0 : Nat) :
    l.foldl (fun (b : Option String × Nat) x => if x.2 < b.2 then (some x.1, x.2) else b)
        (some m0, d0) =
      (some (minScan (m0, d0) l).1, (minScan (m0, d0) l).2) := by
  induction l generalizing m0 d0 with
  | nil => rfl
  | cons x xs ih =>
    simp only [List.foldl_cons, minScan]
    by_cases h : x.2 < d0
    · rw [if_pos h, if_pos h]
      exact ih x.1 x.2
    · rw [if_neg h, if_neg h]
      exact ih m0 d0

theorem minScan_snd (a : String × Nat) (l : List (String × Nat)) :
    (minScan a l).2 = l.foldl (fun d x => min d x.2) a.2 := by
  induction l generalizing a with
  | nil => rfl
  | cons x xs ih =>
    show (minScan (if x.2 < a.2 then x else a) xs).2 = _
    rw [ih, List.foldl_cons]
    congr 1
    split_ifs <;> omega

theorem foldl_min_le_init (i : Nat) (l : List (String × Nat)) :
    l.foldl (fun d x => min d x.2) i ≤ i := by
  induction l generalizing i with
  | nil => simp
  | cons x xs ih =>
    rw [List.foldl_cons]
    exact le_trans (ih (min i x.2)) (by omega)

theorem foldl_min_le_mem (i : Nat) (l : List (String × Nat)) :
    ∀ x ∈ l, l.foldl (fun d x => min d x.2) i ≤ x.2 := by
  induction l generalizing i with
  | nil =>
    intro x hx
    cases hx
  | cons y ys ih =>
    intro x hx
    rw [List.foldl_cons]
    rcases List.mem_cons.mp hx with h | h
    · subst h
      exact le_trans (foldl_min_le_init _ _) (by omega)
    · exact ih _ x h

theorem foldl_min_attained (i : Nat) (l : List (String × Nat)) :
    l.foldl (fun d x => min d x.2) i = i ∨
      ∃ x ∈ l, l.foldl (fun d x => min d x.2) i = x.2 := by
  induction l generalizing i with
  | nil =>
    left
    rfl
  | cons y ys ih =>
    rw [List.foldl_cons]
    rcases ih (min i y.2) with h | ⟨x, hx, hfx⟩
    · by_cases hy : y.2 ≤ i
      · right
        exact ⟨y, List.mem_cons_self _ _, by rw [h]; omega⟩
      · left
        rw [h]
        omega
    · right
      exact ⟨x, List.mem_cons_of_mem _ hx, hfx⟩

theorem minScan_find (a : String × Nat) (l : List (String × Nat)) :
    (a :: l).find? (fun x => x.2 == (minScan a l).2) = some (minScan a l) := by
  induction l generalizing a with
  | nil =>
    have h : (a.2 == (minScan a []).2) = true := by
      simp [minScan]
    simp [List.find?_cons, h, minScan]
  | cons x xs ih =>
    have hstep : minScan a (x :: xs) = minScan (if x.2 < a.2 then x else a) xs := rfl
    by_cases h : x.2 < a.2
    · rw [hstep, if_pos h]
      have hdm : (minScan x xs).2 ≤ x.2 := by
        rw [minScan_snd]
        exact foldl_min_le_init _ _
      have hne : (a.2 == (minScan x xs).2) = false := by
        simp only [beq_eq_false_iff_ne]
        omega
      rw [List.find?_cons, hne]
      exact ih x
    · rw [hstep, if_neg h]
      have hdm : (minScan a xs).2 ≤ a.2 := by
        rw [minScan_snd]
        exact foldl_min_le_init _ _
      by_cases ha : a.2 = (minScan a xs).2
      · have hfa : (a.2 == (minScan a xs).2) = true := by simp [ha]
        have hia := ih a
        rw [List.find?_cons, hfa] at hia
        rw [List.find?_cons, hfa]
        exact hia
      · have hfa : (a.2 == (minScan a xs).2) = false := by simp [ha]
        have hfx : (x.2 == (minScan a xs).2) = false := by
          simp only [beq_eq_false_iff_ne]
          omega
        have hia := ih a
        rw [List.find?_cons, hfa] at hia
        rw [List.find?_cons, hfa, List.find?_cons, hfx]
        exact hia

/-- Claim C4: near-duplicate resolution classifies every unresolved source
file into exactly one of: MOVE_SOURCE/no_phash when its hash is absent;
a REPLACE_MASTER_WITH_SOURCE or KEEP_MASTER decision (chosen by `better`,
reason encoding the distance) against a minimum-distance hashed master —
the first such master in enumeration order on ties — when the minimum
Hamming distance is at most the threshold; MOVE_SOURCE/unique_vs_master
otherwise.  `dm` is the minimum distance over hashed masters, as the
stated bounds and attainment witness show; since a 64-bit hash keeps all
distances below the scan's 999 sentinel, the sentinel never interferes. -/
theorem c4_near_duplicate_classification (env : Env) (threshold : Nat)
    (masterFiles : List String) (s : String) :
    (env.phash s = none →
      nearDecide env threshold masterFiles s = ⟨s, none, "MOVE_SOURCE", "no_phash"⟩) ∧
    (∀ sh, env.phash s = some sh →
      (masterDists env sh masterFiles = [] →
        nearDecide env threshold masterFiles s = ⟨s, none, "MOVE_SOURCE", "unique_vs_master"⟩) ∧
      (∀ m0 d0 rest, masterDists env sh masterFiles = (m0, d0) :: rest →
        ∀ dm, dm = rest.foldl (fun d x => min d x.2) d0 →
          ((∀ x ∈ masterDists env sh masterFiles, dm ≤ x.2) ∧
            (∃ x ∈ masterDists env sh masterFiles, x.2 = dm)) ∧
          (threshold < dm →
            nearDecide env threshold masterFiles s =
              ⟨s, none, "MOVE_SOURCE", "unique_vs_master"⟩) ∧
          (dm ≤ threshold →
            ∃ bm, (masterDists env sh masterFiles).find? (fun x => x.2 == dm) = some (bm, dm) ∧
              nearDecide env threshold masterFiles s =
                (if better env s bm == s then
                  ⟨s, some bm, "REPLACE_MASTER_WITH_SOURCE",
                    "phash_dup_d" ++ toString dm ++ "_better_source"⟩
                else
                  ⟨s, some bm, "KEEP_MASTER",
                    "phash_dup_d" ++ toString dm ++ "_master_better"⟩)))) := by
  constructor
  · intro h
    unfold nearDecide
    rw [h]
  · intro sh hph
    constructor
    · intro hd
      have hscan : nearScan env sh masterFiles = ((none : Option String), 999) := by
        unfold nearScan
        rw [nearScan_eq_foldDists, hd]
        rfl
      unfold nearDecide
      rw [hph]
      dsimp only
      rw [hscan]
    · intro m0 d0 rest hd dm hdm
      have hd0 : d0 < 999 :=
        masterDists_snd_lt env sh masterFiles (m0, d0) (by rw [hd]; exact List.mem_cons_self _ _)
      have hscan : nearScan env sh masterFiles =
          (some (minScan (m0, d0) rest).1, (minScan (m0, d0) rest).2) := by
        unfold nearScan
        rw [nearScan_eq_foldDists, hd]
        simp only [List.foldl_cons]
        rw [if_pos hd0]
        rw [minScan_opt]
      have hsnd : (minScan (m0, d0) rest).2 = dm := by
        rw [minScan_snd, hdm]
      refine ⟨⟨?_, ?_⟩, ?_, ?_⟩
      · intro x hx
        rw [hd] at hx
        rcases List.mem_cons.mp hx with h | h
        · rw [h]
          rw [hdm]
          exact foldl_min_le_init d0 rest
        · rw [hdm]
          exact foldl_min_le_mem d0 rest x h
      · rw [hd]
        rcases foldl_min_attained d0 rest with h | ⟨x, hx, hfx⟩
        · exact ⟨(m0, d0), List.mem_cons_self _ _, by rw [hdm, h]⟩
        · exact ⟨x, List.mem_cons_of_mem _ hx, by rw [hdm, ← hfx]⟩
      · intro hth
        unfold nearDecide
        rw [hph]
        dsimp only
        rw [hscan]
        dsimp only
        rw [hsnd, if_neg (by omega : ¬ dm ≤ threshold)]
      · intro hth
        refine ⟨(minScan (m0, d0) rest).1, ?_, ?_⟩
        · rw [hd, ← hsnd]
          rw [minScan_find]
        · unfold nearDecide
          rw [hph]
          dsimp only
          rw [hscan]
          dsimp only
          rw [hsnd, if_pos hth]

/-- An all-zero 64-bit perceptual hash. -/
def hashZero : Phash := ⟨List.replicate 64 false, rfl⟩

/-- Oracles where the source file and the single master file carry the same
hash (distance 0) and score equally. -/
def envC4 : Env :=
  { envA with phash := fun p => if p == "/S/img.jpg" || p == "/M/img.jpg" then some hashZero else none }

/-- Witness for C4: a distance-0 match below threshold 8 yields KEEP_MASTER
against the minimum-distance master, with the distance encoded in the
reason. -/
theorem c4_near_duplicate_classification_witness :
    nearDecide envC4 8 ["/M/img.jpg"] "/S/img.jpg" =
      ⟨"/S/img.jpg", some "/M/img.jpg", "KEEP_MASTER", "phash_dup_d0_master_better"⟩ := by
  have h := (c4_near_duplicate_classification envC4 8 ["/M/img.jpg"] "/S/img.jpg").2 hashZero rfl
  obtain ⟨bm, hfind, hres⟩ := (h.2 "/M/img.jpg" 0 [] (by decide) 0 rfl).2.2 (by decide)
  have hev : (masterDists envC4 hashZero ["/M/img.jpg"]).find? (fun x => x.2 == 0) =
      some ("/M/img.jpg", 0) := by decide
  rw [hev] at hfind
  have hbm : "/M/img.jpg" = bm := congrArg Prod.fst (Option.some.inj hfind)
  subst hbm
  rw [hres]
  decide

/-! ### Idempotence infrastructure -/

/-- All destination paths a plan can write to: target paths plus recorded
quarantine paths. -/
def destPaths (rows : List PlanRow) : List String :=
  rows.map (fun r => r.target_path) ++ rows.filterMap (fun r => r.quarantine_path)

theorem fsLookup_mkdir (fs : FS) (d q : String) :
    fsLookup (fsMkdir fs d) q = fsLookup fs q := by
  unfold fsLookup
  rw [fsMkdir_files]

theorem fsMkdir_mem_id (fs : FS) (d : String) (h : d ∈ fs.dirs) : fsMkdir fs d = fs := by
  unfold fsMkdir
  rw [if_pos h]

theorem fsLookup_move_none (fs : FS) (a b p : String) (hp : fsLookup fs p = none)
    (hb : p ≠ b) : fsLookup (fsMove fs a b) p = none := by
  by_cases hpa : p = a
  · subst hpa
    exact fsLookup_move_src fs p b hb
  · rw [fsLookup_move_other fs a b p hpa hb]
    exact hp

theorem fsExistsF_false_of_none (fs : FS) (p : String) (h : fsLookup fs p = none) :
    fsExistsF fs p = false := by
  unfold fsExistsF
  rw [h]
  rfl

theorem fsLookup_none_of_existsF_false (fs : FS) (p : String) (h : fsExistsF fs p = false) :
    fsLookup fs p = none := by
  unfold fsExistsF at h
  rcases hl : fsLookup fs p with _ | c
  · rfl
  · rw [hl] at h
    cases h

theorem applyRow_dirs_mono (dr : Bool) (q : String) (st : ApplyState) (row : PlanRow)
    (d : String) (h : d ∈ st.fs.dirs) : d ∈ (applyRow dr q st row).fs.dirs := by
  unfold applyRow applyMoveSource applyReplace
  rcases hm : row.master with _ | m <;> rcases hq : row.quarantine_path with _ | qp <;>
    by_cases h1 : row.action = "KEEP_MASTER" <;> by_cases h2 : row.action = "MOVE_SOURCE" <;>
      simp [h1, h2] <;> (try split_ifs) <;>
        (repeat first
          | exact h
          | rw [fsMove_dirs]
          | apply fsMkdir_dirs_mono)

theorem applyRow_tdir_mem (dr : Bool) (q : String) (st : ApplyState) (row : PlanRow)
    (h : row.action ≠ "KEEP_MASTER") : row.target_dir ∈ (applyRow dr q st row).fs.dirs := by
  unfold applyRow applyMoveSource applyReplace
  rcases hm : row.master with _ | m <;> rcases hq : row.quarantine_path with _ | qp <;>
    by_cases h2 : row.action = "MOVE_SOURCE" <;>
      simp [h, h2] <;> (try split_ifs) <;>
        (repeat first
          | exact fsMkdir_dirs_mem _ _
          | rw [fsMove_dirs]
          | apply fsMkdir_dirs_mono)

theorem bool_eq_false (b : Bool) (h : ¬ b = true) : b = false := by
  cases b
  · rfl
  · exact absurd rfl h

theorem applyMoveSource_clears_src (st : ApplyState) (row : PlanRow)
    (ht : row.src ≠ row.target_path) :
    fsLookup (applyMoveSource false st row).fs row.src = none := by
  unfold applyMoveSource
  simp only [Bool.not_false, Bool.true_and]
  by_cases hex : fsExistsF st.fs row.src = true
  · rw [if_pos hex]
    show fsLookup (fsMove st.fs row.src row.target_path) row.src = none
    exact fsLookup_move_src _ _ _ ht
  · rw [if_neg hex]
    show fsLookup st.fs row.src = none
    exact fsLookup_none_of_existsF_false _ _ (bool_eq_false _ hex)

theorem applyReplace_clears_src (q : String) (st : ApplyState) (row : PlanRow) (m : String)
    (ht : row.src ≠ row.target_path) :
    fsLookup (applyReplace false q st row m).fs row.src = none := by
  unfold applyReplace
  rcases hqp : row.quarantine_path with _ | qp
  · dsimp only
    by_cases hex : fsExistsF st.fs row.src = true
    · rw [if_pos hex]
      show fsLookup (fsMove st.fs row.src row.target_path) row.src = none
      exact fsLookup_move_src _ _ _ ht
    · rw [if_neg hex]
      show fsLookup st.fs row.src = none
      exact fsLookup_none_of_existsF_false _ _ (bool_eq_false _ hex)
  · dsimp only
    by_cases hq1 : fsExistsF st.fs m = true
    · rw [if_pos hq1]
      by_cases hex : fsExistsF (fsMove (fsMkdir st.fs q) m qp) row.src = true
      · rw [if_pos hex]
        show fsLookup (fsMove (fsMove (fsMkdir st.fs q) m qp) row.src row.target_path) row.src = none
        exact fsLookup_move_src _ _ _ ht
      · rw [if_neg hex]
        show fsLookup (fsMove (fsMkdir st.fs q) m qp) row.src = none
        exact fsLookup_none_of_existsF_false _ _ (bool_eq_false _ hex)
    · rw [if_neg hq1]
      by_cases hex : fsExistsF st.fs row.src = true
      · rw [if_pos hex]
        show fsLookup (fsMove st.fs row.src row.target_path) row.src = none
        exact fsLookup_move_src _ _ _ ht
      · rw [if_neg hex]
        show fsLookup st.fs row.src = none
        exact fsLookup_none_of_existsF_false _ _ (bool_eq_false _ hex)

theorem applyReplace_clears_m (q : String) (st : ApplyState) (row : PlanRow) (m qp : String)
    (hqp : row.quarantine_path = some qp) (h1 : m ≠ qp) (h2 : m ≠ row.target_path) :
    fsLookup (applyReplace false q st row m).fs m = none := by
  unfold applyReplace
  rw [hqp]
  dsimp only
  by_cases hq1 : fsExistsF st.fs m = true
  · rw [if_pos hq1]
    have hq2 : fsLookup (fsMove (fsMkdir st.fs q) m qp) m = none := fsLookup_move_src _ _ _ h1
    by_cases hex : fsExistsF (fsMove (fsMkdir st.fs q) m qp) row.src = true
    · rw [if_pos hex]
      show fsLookup (fsMove (fsMove (fsMkdir st.fs q) m qp) row.src row.target_path) m = none
      exact fsLookup_move_none _ _ _ _ hq2 h2
    · rw [if_neg hex]
      exact hq2
  · rw [if_neg hq1]
    have hq2 : fsLookup st.fs m = none := fsLookup_none_of_existsF_false _ _ (bool_eq_false _ hq1)
    by_cases hex : fsExistsF st.fs row.src = true
    · rw [if_pos hex]
      show fsLookup (fsMove st.fs row.src row.target_path) m = none
      exact fsLookup_move_none _ _ _ _ hq2 h2
    · rw [if_neg hex]
      exact hq2

theorem applyRow_lookup_none (dr : Bool) (q : String) (st : ApplyState) (row : PlanRow)
    (p : String) (hp : fsLookup st.fs p = none) (ht : p ≠ row.target_path)
    (hq : ∀ qp, row.quarantine_path = some qp → p ≠ qp) :
    fsLookup (applyRow dr q st row).fs p = none := by
  unfold applyRow applyMoveSource applyReplace
  rcases hm : row.master with _ | m <;> rcases hqp : row.quarantine_path with _ | qp <;>
    by_cases h1 : row.action = "KEEP_MASTER" <;> by_cases h2 : row.action = "MOVE_SOURCE" <;>
      rcases dr with _ | _ <;>
        simp [h1, h2, fsLookup_mkdir] <;> (try split_ifs) <;>
          (repeat first
            | exact hp
            | rw [fsLookup_mkdir]
            | apply fsLookup_move_none
            | exact ht
            | exact hq qp hqp)

theorem applyRow_clears_src_row (q : String) (st : ApplyState) (row : PlanRow)
    (hact : row.action = "MOVE_SOURCE" ∨
      (row.action = "REPLACE_MASTER_WITH_SOURCE" ∧ row.master.isSome))
    (ht : row.src ≠ row.target_path) :
    fsLookup (applyRow false q st row).fs row.src = none := by
  rcases hact with h2 | ⟨h3, hsome⟩
  · have hkb : (row.action == "KEEP_MASTER") = false := by rw [h2]; decide
    have hmb : (row.action == "MOVE_SOURCE") = true := by rw [h2]; decide
    unfold applyRow
    simp only [hkb, hmb, Bool.false_eq_true, if_false, if_true]
    exact applyMoveSource_clears_src _ row ht
  · rcases hm2 : row.master with _ | m
    · rw [hm2] at hsome
      simp at hsome
    · have hkb : (row.action == "KEEP_MASTER") = false := by rw [h3]; decide
      have hmb : (row.action == "MOVE_SOURCE") = false := by rw [h3]; decide
      have hrb : (row.action == "REPLACE_MASTER_WITH_SOURCE") = true := by rw [h3]; decide
      unfold applyRow
      simp only [hkb, hmb, hrb, hm2, Bool.false_eq_true, if_false, if_true]
      exact applyReplace_clears_src q _ row m ht

theorem applyRow_clears_m_row (q : String) (st : ApplyState) (row : PlanRow) (m qp : String)
    (h3 : row.action = "REPLACE_MASTER_WITH_SOURCE") (hm2 : row.master = some m)
    (hqp : row.quarantine_path = some qp) (h1 : m ≠ qp) (h2m : m ≠ row.target_path) :
    fsLookup (applyRow false q st row).fs m = none := by
  have hkb : (row.action == "KEEP_MASTER") = false := by rw [h3]; decide
  have hmb : (row.action == "MOVE_SOURCE") = false := by rw [h3]; decide
  have hrb : (row.action == "REPLACE_MASTER_WITH_SOURCE") = true := by rw [h3]; decide
  unfold applyRow
  simp only [hkb, hmb, hrb, hm2, Bool.false_eq_true, if_false, if_true]
  exact applyReplace_clears_m q _ row m qp hqp h1 h2m

theorem applyRow_noop (q : String) (st : ApplyState) (row : PlanRow)
    (h1 : (row.action = "MOVE_SOURCE" ∨
      (row.action = "REPLACE_MASTER_WITH_SOURCE" ∧ row.master.isSome)) →
      fsLookup st.fs row.src = none)
    (h2 : ∀ m qp, row.action = "REPLACE_MASTER_WITH_SOURCE" → row.master = some m →
      row.quarantine_path = some qp → fsLookup st.fs m = none)
    (h3 : row.action ≠ "KEEP_MASTER" → row.target_dir ∈ st.fs.dirs) :
    (applyRow false q st row).fs = st.fs ∧ (applyRow false q st row).trace = st.trace := by
  by_cases hk : row.action = "KEEP_MASTER"
  · have hkb : (row.action == "KEEP_MASTER") = true := by rw [hk]; decide
    unfold applyRow
    rw [hkb]
    exact ⟨rfl, rfl⟩
  · have hkb : (row.action == "KEEP_MASTER") = false := beq_eq_false_iff_ne.mpr hk
    have hmk : fsMkdir st.fs row.target_dir = st.fs := fsMkdir_mem_id _ _ (h3 hk)
    by_cases hmv : row.action = "MOVE_SOURCE"
    · have hmb : (row.action == "MOVE_SOURCE") = true := by rw [hmv]; decide
      have hex : fsExistsF st.fs row.src = false :=
        fsExistsF_false_of_none _ _ (h1 (Or.inl hmv))
      unfold applyRow applyMoveSource
      simp only [hkb, hmb, Bool.false_eq_true, if_false, if_true, hmk, Bool.not_false,
        Bool.true_and, hex]
      exact ⟨trivial, trivial⟩
    · have hmb : (row.action == "MOVE_SOURCE") = false := beq_eq_false_iff_ne.mpr hmv
      rcases hm2 : row.master with _ | m
      · unfold applyRow
        simp only [hkb, hmb, Bool.false_eq_true, if_false, hm2, hmk]
        exact ⟨trivial, trivial⟩
      · by_cases hrp : row.action = "REPLACE_MASTER_WITH_SOURCE"
        · have hrb : (row.action == "REPLACE_MASTER_WITH_SOURCE") = true := by rw [hrp]; decide
          have hsrc : fsExistsF st.fs row.src = false :=
            fsExistsF_false_of_none _ _ (h1 (Or.inr ⟨hrp, by rw [hm2]; rfl⟩))
          unfold applyRow applyReplace
          simp only [hkb, hmb, hrb, Bool.false_eq_true, if_false, if_true, hm2, hmk]
          rcases hqp : row.quarantine_path with _ | qp
          · simp only [hsrc, Bool.false_eq_true, if_false]
            exact ⟨trivial, trivial⟩
          · have hmex : fsExistsF st.fs m = false :=
              fsExistsF_false_of_none _ _ (h2 m qp hrp hm2 hqp)
            simp only [hmex, Bool.false_eq_true, if_false, hsrc]
            exact ⟨trivial, trivial⟩
        · have hrb : (row.action == "REPLACE_MASTER_WITH_SOURCE") = false :=
            beq_eq_false_iff_ne.mpr hrp
          unfold applyRow
          simp only [hkb, hmb, hrb, Bool.false_eq_true, if_false, hm2, hmk]
          exact ⟨trivial, trivial⟩

theorem not_mem_destPaths_cons (p : String) (row : PlanRow) (rest : List PlanRow)
    (h : p ∉ destPaths (row :: rest)) :
    p ≠ row.target_path ∧ (∀ qp, row.quarantine_path = some qp → p ≠ qp) ∧
      p ∉ destPaths rest := by
  refine ⟨?_, ?_, ?_⟩
  · intro he
    exact h (by
      unfold destPaths
      exact List.mem_append.mpr (Or.inl (List.mem_map.mpr ⟨row, List.mem_cons_self _ _, he.symm⟩)))
  · intro qp hqp he
    exact h (by
      unfold destPaths
      refine List.mem_append.mpr (Or.inr (List.mem_filterMap.mpr ⟨row, List.mem_cons_self _ _, ?_⟩))
      rw [hqp, he])
  · intro he
    apply h
    unfold destPaths at he ⊢
    rcases List.mem_append.mp he with h1 | h1
    · rcases List.mem_map.mp h1 with ⟨r, hr, hre⟩
      exact List.mem_append.mpr (Or.inl (List.mem_map.mpr ⟨r, List.mem_cons_of_mem _ hr, hre⟩))
    · rcases List.mem_filterMap.mp h1 with ⟨r, hr, hre⟩
      exact List.mem_append.mpr (Or.inr (List.mem_filterMap.mpr ⟨r, List.mem_cons_of_mem _ hr, hre⟩))

theorem destPaths_sub (rows rows' : List PlanRow) (hsub : ∀ r ∈ rows', r ∈ rows) (p : String)
    (h : p ∉ destPaths rows) : p ∉ destPaths rows' := by
  intro he
  apply h
  unfold destPaths at he ⊢
  rcases List.mem_append.mp he with h1 | h1
  · rcases List.mem_map.mp h1 with ⟨r, hr, hre⟩
    exact List.mem_append.mpr (Or.inl (List.mem_map.mpr ⟨r, hsub r hr, hre⟩))
  · rcases List.mem_filterMap.mp h1 with ⟨r, hr, hre⟩
    exact List.mem_append.mpr (Or.inr (List.mem_filterMap.mpr ⟨r, hsub r hr, hre⟩))

theorem applyRows_append (dr : Bool) (q : String) (l1 l2 : List PlanRow) (st : ApplyState) :
    applyRows dr q (l1 ++ l2) st = applyRows dr q l2 (applyRows dr q l1 st) := by
  unfold applyRows
  rw [List.foldl_append]

theorem applyRows_lookup_none (dr : Bool) (q : String) (rows : List PlanRow) (st : ApplyState)
    (p : String) (hp : fsLookup st.fs p = none) (hd : p ∉ destPaths rows) :
    fsLookup (applyRows dr q rows st).fs p = none := by
  induction rows generalizing st with
  | nil => exact hp
  | cons row rest ih =>
    obtain ⟨h1, h2, h3⟩ := not_mem_destPaths_cons p row rest hd
    rw [applyRows_cons]
    exact ih (applyRow dr q st row) (applyRow_lookup_none dr q st row p hp h1 h2) h3

theorem applyRows_dirs_mono (dr : Bool) (q : String) (rows : List PlanRow) (st : ApplyState)
    (d : String) (h : d ∈ st.fs.dirs) : d ∈ (applyRows dr q rows st).fs.dirs := by
  induction rows generalizing st with
  | nil => exact h
  | cons row rest ih =>
    rw [applyRows_cons]
    exact ih (applyRow dr q st row) (applyRow_dirs_mono dr q st row d h)

theorem applyRows_tdir (dr : Bool) (q : String) (rows : List PlanRow) (st : ApplyState) :
    ∀ r ∈ rows, r.action ≠ "KEEP_MASTER" →
      r.target_dir ∈ (applyRows dr q rows st).fs.dirs := by
  intro r hr hk
  obtain ⟨pre, post, rfl⟩ := List.append_of_mem hr
  rw [applyRows_append, applyRows_cons]
  exact applyRows_dirs_mono dr q post _ r.target_dir
    (applyRow_tdir_mem dr q (applyRows dr q pre st) r hk)

theorem applyRows_clears (q : String) (rows : List PlanRow) (st : ApplyState)
    (H : ∀ r ∈ rows, r.src ∉ destPaths rows ∧
      ∀ m, r.master = some m → m ∉ destPaths rows) :
    ∀ r ∈ rows,
      ((r.action = "MOVE_SOURCE" ∨
          (r.action = "REPLACE_MASTER_WITH_SOURCE" ∧ r.master.isSome)) →
        fsLookup (applyRows false q rows st).fs r.src = none) ∧
      (∀ m qp, r.action = "REPLACE_MASTER_WITH_SOURCE" → r.master = some m →
        r.quarantine_path = some qp →
        fsLookup (applyRows false q rows st).fs m = none) := by
  intro r hr
  obtain ⟨hsrc_nd, hm_nd⟩ := H r hr
  have htp : r.target_path ∈ destPaths rows := by
    unfold destPaths
    exact List.mem_append.mpr (Or.inl (List.mem_map.mpr ⟨r, hr, rfl⟩))
  obtain ⟨pre, post, rfl⟩ := List.append_of_mem hr
  have hpost_sub : ∀ x ∈ post, x ∈ pre ++ r :: post := fun x hx =>
    List.mem_append.mpr (Or.inr (List.mem_cons_of_mem _ hx))
  rw [applyRows_append, applyRows_cons]
  constructor
  · intro hact
    have ht : r.src ≠ r.target_path := fun he => hsrc_nd (he ▸ htp)
    exact applyRows_lookup_none false q post _ r.src
      (applyRow_clears_src_row q _ r hact ht)
      (destPaths_sub _ post hpost_sub _ hsrc_nd)
  · intro m qp h3 hm2 hqp
    have hmn := hm_nd m hm2
    have hqmem : qp ∈ destPaths (pre ++ r :: post) := by
      unfold destPaths
      exact List.mem_append.mpr (Or.inr (List.mem_filterMap.mpr ⟨r, hr, hqp⟩))
    have hno1 : m ≠ qp := fun he => hmn (he ▸ hqmem)
    have hno2 : m ≠ r.target_path := fun he => hmn (he ▸ htp)
    exact applyRows_lookup_none false q post _ m
      (applyRow_clears_m_row q _ r m qp h3 hm2 hqp hno1 hno2)
      (destPaths_sub _ post hpost_sub _ hmn)

theorem applyRows_noop (q : String) (rows : List PlanRow) (st : ApplyState)
    (H : ∀ r ∈ rows,
      ((r.action = "MOVE_SOURCE" ∨
          (r.action = "REPLACE_MASTER_WITH_SOURCE" ∧ r.master.isSome)) →
        fsLookup st.fs r.src = none) ∧
      (∀ m qp, r.action = "REPLACE_MASTER_WITH_SOURCE" → r.master = some m →
        r.quarantine_path = some qp → fsLookup st.fs m = none) ∧
      (r.action ≠ "KEEP_MASTER" → r.target_dir ∈ st.fs.dirs)) :
    (applyRows false q rows st).fs = st.fs ∧ (applyRows false q rows st).trace = st.trace := by
  induction rows generalizing st with
  | nil => exact ⟨rfl, rfl⟩
  | cons row rest ih =>
    obtain ⟨hh1, hh2, hh3⟩ := H row (List.mem_cons_self _ _)
    obtain ⟨hfs, htr⟩ := applyRow_noop q st row hh1 hh2 hh3
    rw [applyRows_cons]
    have ih2 := ih (applyRow false q st row) (fun r hr => by
      rw [hfs]
      exact H r (List.mem_cons_of_mem _ hr))
    exact ⟨ih2.1.trans hfs, ih2.2.trans htr⟩

/-- A replace entry whose target path coincides with the recorded master
path: this arises for a byte-identical exact duplicate, since the file at
the nominal target (the master itself) compares equal and no suffix is
added. -/
def rowC5 : PlanRow :=
  ⟨"REPLACE_MASTER_WITH_SOURCE", "/S/a.jpg", some "/M/2019/07/a.jpg", "/M/2019/07",
   "/M/2019/07/a.jpg", some "/quarantine/a.jpg", "exact_dup_better_source",
   (2, -960000, -1, -2097152), some (2, -960000, -1, -2097152)⟩

/-- Filesystem holding both files referenced by `rowC5`. -/
def fsC5 : FS := ⟨[("/S/a.jpg", ⟨1, "A"⟩), ("/M/2019/07/a.jpg", ⟨1, "A"⟩)], []⟩

/-- Claim C5 counterexample: applying this one-entry plan twice is not
idempotent — the second run still finds a file at the recorded master path
(the freshly moved source) and moves it to the quarantine path, overwriting
the quarantined original; the second run's move trace is nonempty. -/
theorem c5_second_apply_counterexample :
    (do_apply (some [rowC5]) false "/quarantine"
        (do_apply (some [rowC5]) false "/quarantine" fsC5).fs).trace =
      [("/M/2019/07/a.jpg", "/quarantine/a.jpg")] ∧
    (do_apply (some [rowC5]) false "/quarantine"
        (do_apply (some [rowC5]) false "/quarantine" fsC5).fs).trace ≠ [] := by
  decide

/-- Claim C5 (amended): apply is idempotent for plans whose recorded source
and master locations are disjoint from every destination (target or
quarantine path) of the plan: after a live apply, a second live apply of
the unchanged plan performs no move, leaves the filesystem exactly as the
first run left it, and exits with status 0.  Without that separation —
e.g. when an entry's target path equals its recorded master path — the
second run does move files, see the counterexample. -/
theorem c5_second_apply_is_noop (rows : List PlanRow) (quarRoot : String) (fs : FS)
    (H : ∀ r ∈ rows, r.src ∉ destPaths rows ∧
      ∀ m, r.master = some m → m ∉ destPaths rows) :
    (do_apply (some rows) false quarRoot
        (do_apply (some rows) false quarRoot fs).fs).trace = [] ∧
    (do_apply (some rows) false quarRoot
        (do_apply (some rows) false quarRoot fs).fs).fs =
      (do_apply (some rows) false quarRoot fs).fs ∧
    (do_apply (some rows) false quarRoot
        (do_apply (some rows) false quarRoot fs).fs).exitCode = 0 := by
  have hclears := applyRows_clears quarRoot rows ⟨fs, 0, 0, 0, []⟩ H
  have hnoop := applyRows_noop quarRoot rows
    ⟨(applyRows false quarRoot rows ⟨fs, 0, 0, 0, []⟩).fs, 0, 0, 0, []⟩
    (fun r hr => ⟨(hclears r hr).1, (hclears r hr).2,
      fun hk => applyRows_tdir false quarRoot rows ⟨fs, 0, 0, 0, []⟩ r hr hk⟩)
  exact ⟨hnoop.2, hnoop.1, rfl⟩

/-- Witness for the amended C5 at a concrete well-separated plan. -/
theorem c5_second_apply_is_noop_witness :
    (do_apply (some [rowC6]) false "/quarantine"
        (do_apply (some [rowC6]) false "/quarantine" fsC6).fs).trace = [] ∧
    (do_apply (some [rowC6]) false "/quarantine"
        (do_apply (some [rowC6]) false "/quarantine" fsC6).fs).fs =
      (do_apply (some [rowC6]) false "/quarantine" fsC6).fs ∧
    (do_apply (some [rowC6]) false "/quarantine"
        (do_apply (some [rowC6]) false "/quarantine" fsC6).fs).exitCode = 0 :=
  c5_second_apply_is_noop [rowC6] "/quarantine" fsC6 (by
    intro r hr
    rw [List.mem_singleton] at hr
    subst hr
    refine ⟨by decide, ?_⟩
    intro m hm
    have hme : "/M/2019/07/b.jpg" = m :=
      Option.some.inj ((rfl : rowC6.master = some "/M/2019/07/b.jpg").symm.trans hm)
    rw [← hme]
    decide)

/-! ### Every source file appears in exactly one plan entry -/

theorem groupDecide_src (env : Env) (hm : List String) (s : String) :
    (groupDecide env hm s).src = s := by
  unfold groupDecide
  rcases hm with _ | ⟨m0, ms⟩
  · rfl
  · dsimp only
    split <;> rfl

theorem nearDecide_src (env : Env) (t : Nat) (mf : List String) (s : String) :
    (nearDecide env t mf s).src = s := by
  unfold nearDecide
  rcases hph : env.phash s with _ | sh
  · rfl
  · dsimp only
    rcases hb : (nearScan env sh mf).1 with _ | bm
    · rfl
    · dsimp only
      split_ifs <;> rfl

theorem groupDecisions_map_src (env : Env) (mr sr : String) (g : List String) :
    (groupDecisions env mr sr g).map (fun d => d.src) =
      if ((g.filter (fun p => strStarts p mr)).isEmpty ||
          (g.filter (fun p => strStarts p sr)).isEmpty) = true
      then [] else g.filter (fun p => strStarts p sr) := by
  unfold groupDecisions
  dsimp only
  split
  · rfl
  · rw [List.map_map]
    have h2 : List.map ((fun d => d.src) ∘ groupDecide env (List.filter (fun p => strStarts p mr) g))
        (List.filter (fun p => strStarts p sr) g) =
        List.map (fun x => x) (List.filter (fun p => strStarts p sr) g) :=
      List.map_congr_left (fun x _ => groupDecide_src env _ x)
    rw [h2]
    simp

theorem pairs_exact_cons (env : Env) (mr sr : String) (g : List String)
    (gs : List (List String)) :
    pairs_exact env mr sr (g :: gs) =
      groupDecisions env mr sr g ++ pairs_exact env mr sr gs := by
  unfold pairs_exact
  rw [List.flatMap_cons]

theorem mem_group_of_mem_srcs (env : Env) (mr sr : String) (gs : List (List String))
    (s : String) (h : s ∈ (pairs_exact env mr sr gs).map (fun d => d.src)) :
    ∃ g ∈ gs, s ∈ g := by
  rcases List.mem_map.mp h with ⟨d, hd, hds⟩
  rcases List.mem_flatMap.mp hd with ⟨g, hg, hdg⟩
  refine ⟨g, hg, ?_⟩
  have hsm : s ∈ (groupDecisions env mr sr g).map (fun d => d.src) :=
    List.mem_map.mpr ⟨d, hdg, hds⟩
  rw [groupDecisions_map_src] at hsm
  rcases hc : ((g.filter (fun p => strStarts p mr)).isEmpty ||
      (g.filter (fun p => strStarts p sr)).isEmpty) with _ | _
  · rw [hc, if_neg (by simp)] at hsm
    exact (List.mem_filter.mp hsm).1
  · rw [hc, if_pos rfl] at hsm
    cases hsm

theorem exact_srcs_count_le_one (env : Env) (mr sr : String) (s : String)
    (groups : List (List String))
    (hdisj : groups.Pairwise (fun g1 g2 => ∀ x ∈ g1, x ∉ g2))
    (hnd : ∀ g ∈ groups, g.Nodup) :
    ((pairs_exact env mr sr groups).map (fun d => d.src)).count s ≤ 1 := by
  induction groups with
  | nil => simp [pairs_exact]
  | cons g gs ih =>
    rw [pairs_exact_cons, List.map_append, List.count_append]
    have hdisj2 := (List.pairwise_cons.mp hdisj).2
    have hdg := (List.pairwise_cons.mp hdisj).1
    have ihc := ih hdisj2 (fun g2 hg2 => hnd g2 (List.mem_cons_of_mem _ hg2))
    by_cases hsg : s ∈ g
    · have hrest : ((pairs_exact env mr sr gs).map (fun d => d.src)).count s = 0 := by
        rw [List.count_eq_zero]
        intro hmem
        rcases mem_group_of_mem_srcs env mr sr gs s hmem with ⟨g2, hg2, hsg2⟩
        exact hdg g2 hg2 s hsg hsg2
      have hhead : ((groupDecisions env mr sr g).map (fun d => d.src)).count s ≤ 1 := by
        rw [groupDecisions_map_src]
        split
        · simp
        · exact List.nodup_iff_count_le_one.mp
            (List.Nodup.filter _ (hnd g (List.mem_cons_self _ _))) s
      omega
    · have hhead : ((groupDecisions env mr sr g).map (fun d => d.src)).count s = 0 := by
        rw [List.count_eq_zero]
        intro hmem
        rw [groupDecisions_map_src] at hmem
        rcases hc : ((g.filter (fun p => strStarts p mr)).isEmpty ||
            (g.filter (fun p => strStarts p sr)).isEmpty) with _ | _
        · rw [hc, if_neg (by simp)] at hmem
          exact hsg (List.mem_filter.mp hmem).1
        · rw [hc, if_pos rfl] at hmem
          cases hmem
      omega

theorem map_src_rowOf (env : Env) (fs : FS) (mr qr : String) (ds : List Decision) :
    ((ds.map (rowOf env fs mr qr)).map (fun r => r.src)) = ds.map (fun d => d.src) := by
  rw [List.map_map]
  exact List.map_congr_left (fun d _ => rfl)

theorem map_src_pairs_sim (env : Env) (t : Nat) (mf rem : List String) :
    (pairs_sim env t mf rem).map (fun d => d.src) = rem := by
  unfold pairs_sim
  rw [List.map_map]
  have h2 : List.map ((fun d => d.src) ∘ nearDecide env t mf) rem =
      List.map (fun x => x) rem :=
    List.map_congr_left (fun x _ => nearDecide_src env t mf x)
  rw [h2]
  simp

/-- Claim C8: when the external exact-duplicate groups are pairwise
disjoint lists of distinct paths and the enumerated source files are
distinct, every enumerated source file is the `src` of exactly one plan
entry: at most one exact-duplicate decision can name it (group
disjointness), such a file is excluded from the near-duplicate phase, and
every other source file receives exactly one near-duplicate decision. -/
theorem c8_each_source_file_one_entry (env : Env) (fs : FS)
    (masterRoot sourceRoot quarRoot : String) (masterFiles sourceFiles : List String)
    (groups : List (List String)) (threshold : Nat)
    (hdisj : groups.Pairwise (fun g1 g2 => ∀ x ∈ g1, x ∉ g2))
    (hnd : ∀ g ∈ groups, g.Nodup) (hsnd : sourceFiles.Nodup) :
    ∀ s ∈ sourceFiles,
      ((make_plan env fs masterRoot sourceRoot quarRoot masterFiles sourceFiles groups
          threshold).map (fun r => r.src)).count s = 1 := by
  intro s hs
  unfold make_plan
  dsimp only
  rw [map_src_rowOf, List.map_append, List.count_append, map_src_pairs_sim]
  by_cases hse : s ∈ (pairs_exact env masterRoot sourceRoot groups).map (fun d => d.src)
  · have hle := exact_srcs_count_le_one env masterRoot sourceRoot s groups hdisj hnd
    have hpos := List.count_pos_iff.mpr hse
    have hc : ((pairs_exact env masterRoot sourceRoot groups).map
        (fun d => d.src)).contains s = true := List.elem_iff.mpr hse
    have hrem : (sourceFiles.filter (fun p =>
        !((pairs_exact env masterRoot sourceRoot groups).map (fun d => d.src)).contains p)).count
          s = 0 := by
      rw [List.count_eq_zero]
      intro hmem
      have h2 := (List.mem_filter.mp hmem).2
      rw [hc] at h2
      cases h2
    omega
  · have hpe : ((pairs_exact env masterRoot sourceRoot groups).map
        (fun d => d.src)).count s = 0 := List.count_eq_zero.mpr hse
    have hc : ((pairs_exact env masterRoot sourceRoot groups).map
        (fun d => d.src)).contains s = false := by
      rcases hb : ((pairs_exact env masterRoot sourceRoot groups).map
          (fun d => d.src)).contains s with _ | _
      · exact hb
      · exact absurd (List.elem_iff.mp hb) hse
    have hmem : s ∈ sourceFiles.filter (fun p =>
        !((pairs_exact env masterRoot sourceRoot groups).map (fun d => d.src)).contains p) := by
      rw [List.mem_filter]
      refine ⟨hs, ?_⟩
      rw [hc]
      rfl
    have hrem := List.count_eq_one_of_mem (List.Nodup.filter _ hsnd) hmem
    omega

/-- Witness for C8: with one byte-identical group and one genuinely new
file, the byte-identical source file appears in exactly one plan entry. -/
theorem c8_each_source_file_one_entry_witness :
    ((make_plan envA fsC5 "/M" "/S" "/q" ["/M/vacation.jpg"]
        ["/S/vacation.jpg", "/S/new.jpg"] [["/M/vacation.jpg", "/S/vacation.jpg"]] 8).map
      (fun r => r.src)).count "/S/vacation.jpg" = 1 :=
  c8_each_source_file_one_entry envA fsC5 "/M" "/S" "/q" ["/M/vacation.jpg"]
    ["/S/vacation.jpg", "/S/new.jpg"] [["/M/vacation.jpg", "/S/vacation.jpg"]] 8
    (by simp) (by decide) (by decide) "/S/vacation.jpg" (by decide)
